import Mathlib

/-
Verification development for the ReTrans document-translation core.

The repository keeps several revisions of the same modules concatenated in
one file per path.  We embed each revision that the verified properties
touch, in file order:

* `FileSvc`  — src/services/fileService.ts (single revision): processTxt,
  processDocx (DOM walk), processPdf (positional line grouping).
* `GSvc1`    — first revision of src/services/geminiService.ts
  (translateBatch maps over the parsed model array, no length check).
* `GSvc2`    — second revision (translateBatch checks the parsed array
  length and throws a synchronization error on mismatch).
* `GSvc3`    — third revision (translateBatch maps over the batch itself,
  empty-line positions forced to the empty string, missing entries filled
  with each chunk's original text).
* `AppMain`  — first revision of src/App.tsx: vision-fallback dispatch and
  the merge of translated strings onto the chunk sequence.

Network calls are modelled by passing the (already JSON-parsed) model
response in as an explicit argument; a thrown call is modelled with
`Except`/`Option` as noted at each definition.  JavaScript strings are
modelled as Lean `String` (code points instead of UTF-16 units; all
properties below are insensitive to the difference on the inputs used).
-/

namespace ReTrans

/-- Chunk kinds used by the extractors and translator
(`'heading' | 'paragraph' | 'table-cell' | 'checkbox' | 'empty-line'` in
types.ts and the services). -/
inductive ChunkType where
  | heading
  | paragraph
  | tableCell
  | checkbox
  | emptyLine
  deriving DecidableEq, Repr

/-- The optional `metadata` bag of a DocumentChunk (types.ts), restricted to
the fields the embedded code writes. -/
structure ChunkMeta where
  level : Option Nat := none
  isBold : Option Bool := none
  isItalic : Option Bool := none
  isUnderlined : Option Bool := none
  isCheckbox : Option Bool := none
  isChecked : Option Bool := none
  alignment : Option String := none
  deriving DecidableEq, Repr

/-- DocumentChunk from types.ts. -/
structure DocumentChunk where
  id : String
  type : ChunkType
  originalText : String
  translatedText : Option String := none
  metadata : Option ChunkMeta := none
  deriving DecidableEq, Repr

/-- JavaScript `array.map((x, i) => f(i, x))` starting the index at `k`. -/
def mapIdxFrom (f : Nat → α → β) : Nat → List α → List β
  | _, [] => []
  | k, a :: as => f k a :: mapIdxFrom f (k + 1) as

/-- JavaScript `array.map((x, i) => f(i, x))`. -/
def jsMapIdx (f : Nat → α → β) (l : List α) : List β :=
  mapIdxFrom f 0 l

/-
JavaScript string primitives, modelled over the character list of a Lean
`String` so that every embedded function evaluates inside the kernel.
They implement the ECMAScript behaviour on the ASCII range; the extra
Unicode space characters that `trim`, `\s` and `toLowerCase` also handle
never occur in the inputs of the properties below.
-/

/-- The character class of the regular expression `\s` (and of the
whitespace set trimmed by `String.prototype.trim`), restricted to the
ASCII whitespace characters. -/
def isSpaceClass (c : Char) : Bool :=
  c = ' ' || c = '\t' || c = '\n' || c = '\r' || c = '\x0b' || c = '\x0c'

/-- JavaScript `s.trim()`. -/
def jsTrim (s : String) : String :=
  String.mk (((s.toList.dropWhile isSpaceClass).reverse.dropWhile isSpaceClass).reverse)

/-- JavaScript `s.toLowerCase()` on one ASCII character. -/
def lowerChar (c : Char) : Char :=
  if 'A' ≤ c ∧ c ≤ 'Z' then Char.ofNat (c.toNat + 32) else c

/-- JavaScript `s.toLowerCase()`. -/
def jsToLower (s : String) : String :=
  String.mk (s.toList.map lowerChar)

/-- JavaScript `s.includes(c)` for a one-character needle. -/
def includesChar (s : String) (c : Char) : Bool :=
  s.toList.contains c

/-- The decimal digit character of `d < 10`. -/
def digitChar (d : Nat) : Char :=
  Char.ofNat (48 + d)

/-- Decimal digits of `n`, most significant first; `fuel` bounds the
recursion and any `fuel > n` is enough. -/
def natDigits : Nat → Nat → List Char
  | 0, _ => []
  | fuel + 1, n => if n < 10 then [digitChar n]
                   else natDigits fuel (n / 10) ++ [digitChar (n % 10)]

/-- The decimal rendering of a natural number, as JavaScript template
interpolation renders the chunk counters. -/
def natToString (n : Nat) : String :=
  String.mk (natDigits (n + 1) n)

namespace FileSvc

/-- Removes a single trailing carriage return, so that splitting on the
line-feed character exactly matches the source's split on the regular
expression `\r?\n`. -/
def stripTrailingCR (l : List Char) : List Char :=
  if l.getLast? = some '\r' then l.dropLast else l

/-- Splits a character list at every occurrence of `sep`; the result is
always non-empty, with an empty piece for adjacent separators, exactly as
JavaScript `split`. -/
def splitOnChar (sep : Char) : List Char → List (List Char)
  | [] => [[]]
  | a :: as =>
    match splitOnChar sep as with
    | r :: rs => if a = sep then [] :: r :: rs else (a :: r) :: rs
    | [] => [[]]

/-- `text.split(/\r?\n/)` from processTxt. -/
def splitLines (text : String) : List String :=
  (splitOnChar '\n' text.toList).map (fun l => String.mk (stripTrailingCR l))

/-- The per-line chunk construction of processTxt
(src/services/fileService.ts lines 60-74): blank or whitespace-only lines
become `empty-line`; index 0 becomes a bold level-1 `heading`; every other
line becomes a `paragraph`. -/
def processTxtLine (index : Nat) (line : String) : DocumentChunk :=
  if (jsTrim line).length = 0 then
    { id := "txt-empty-" ++ natToString index
      type := ChunkType.emptyLine
      originalText := "" }
  else
    { id := "chunk-" ++ natToString index
      type := if index = 0 then ChunkType.heading else ChunkType.paragraph
      originalText := line
      metadata := some
        { alignment := some "left"
          isBold := some (index == 0)
          level := if index = 0 then some 1 else none } }

/-- processTxt (src/services/fileService.ts lines 56-75), as a pure
function of the decoded file text. -/
def processTxt (text : String) : List DocumentChunk :=
  jsMapIdx processTxtLine (splitLines text)

/-- The facts about a DOM element that the processDocx walk reads:
tag name, `el.innerText`, presence of descendant markup queried with
`querySelector`, explicit underline styling, enclosing underline
(`el.closest('u')`) and declared text alignment (empty string when the
style property is unset, as in the DOM). -/
structure ElemInfo where
  innerText : String
  hasU : Bool := false
  styleUnderline : Bool := false
  inU : Bool := false
  hasStrongB : Bool := false
  hasEmI : Bool := false
  textAlign : String := ""
  deriving DecidableEq, Repr

/-- A node of the DOM tree produced by parsing the converted HTML:
either an element (tag, queried facts, children) or a non-element node,
which the walk skips (`node.nodeType === Node.ELEMENT_NODE`). -/
inductive DomNode where
  | elem (tag : String) (info : ElemInfo) (children : List DomNode)
  | nonElement

/-- `text.match(/^[\[(][xX\s][\])]|^[☐☑☒]/)` from the processDocx
paragraph branch (fileService.ts line 110), as a Bool test. -/
def checkboxMatch (text : String) : Bool :=
  match text.toList with
  | c1 :: c2 :: c3 :: _ =>
    ((c1 = '[' || c1 = '(') && (c2 = 'x' || c2 = 'X' || isSpaceClass c2)
        && (c3 = ']' || c3 = ')'))
      || (c1 = '☐' || c1 = '☑' || c1 = '☒')
  | c1 :: _ => c1 = '☐' || c1 = '☑' || c1 = '☒'
  | [] => false

/-- `/^[\[(][xX][\])]/.test(text)` from the isChecked computation
(fileService.ts line 121). -/
def filledBracketMatch (text : String) : Bool :=
  match text.toList with
  | c1 :: c2 :: c3 :: _ =>
    (c1 = '[' || c1 = '(') && (c2 = 'x' || c2 = 'X') && (c3 = ']' || c3 = ')')
  | _ => false

/-- `text.includes('☑') || text.includes('☒') || /^[\[(][xX][\])]/.test(text)`
(fileService.ts line 121). -/
def checkedMatch (text : String) : Bool :=
  includesChar text '☑' || includesChar text '☒' || filledBracketMatch text

/-- `parseInt(tagName.substring(1))` applied to a heading tag `h1`-`h6`:
the value of the digit after the `h`. -/
def headingLevel (tag : String) : Nat :=
  match tag.toList with
  | _ :: d :: _ => d.toNat - 48
  | _ => 0

/-- The chunk appended by the heading branch of the processDocx walk
(fileService.ts lines 92-102). -/
def docxHeadingChunk (count : Nat) (tag : String) (info : ElemInfo) :
    DocumentChunk :=
  { id := "docx-h-" ++ natToString count
    type := ChunkType.heading
    originalText := jsTrim info.innerText
    metadata := some
      { level := some (headingLevel tag)
        isBold := some true
        isUnderlined := some (info.hasU || info.styleUnderline) } }

/-- The chunk appended by the non-empty paragraph branch
(fileService.ts lines 110-123). -/
def docxParagraphChunk (count : Nat) (info : ElemInfo) : DocumentChunk :=
  let text := jsTrim info.innerText
  { id := "docx-p-" ++ natToString count
    type := if checkboxMatch text then ChunkType.checkbox else ChunkType.paragraph
    originalText := text
    metadata := some
      { isBold := some info.hasStrongB
        isItalic := some info.hasEmI
        isUnderlined := some (info.hasU || info.styleUnderline || info.inU)
        isCheckbox := some (checkboxMatch text)
        isChecked := some (checkedMatch text) } }

/-- The chunk appended by the table-cell branch
(fileService.ts lines 124-134). -/
def docxCellChunk (count : Nat) (tag : String) (info : ElemInfo) :
    DocumentChunk :=
  { id := "docx-td-" ++ natToString count
    type := ChunkType.tableCell
    originalText := jsTrim info.innerText
    metadata := some
      { isBold := some ((tag == "th") || info.hasStrongB)
        isUnderlined := some (info.hasU || info.styleUnderline)
        alignment := some (if info.textAlign = "" then "left" else info.textAlign) } }

mutual

/-- The recursive walk of processDocx (fileService.ts lines 87-143).
The accumulator is the `chunks` array the source pushes into; ids embed the
running chunk count exactly as in the source. -/
def walk (acc : List DocumentChunk) : DomNode → List DocumentChunk
  | DomNode.nonElement => acc
  | DomNode.elem tag info children =>
    if tag ∈ ["h1", "h2", "h3", "h4", "h5", "h6"] then
      acc ++ [docxHeadingChunk acc.length tag info]
    else if tag = "p" then
      if jsTrim info.innerText = "" then
        acc ++ [{ id := "docx-e-" ++ natToString acc.length
                  type := ChunkType.emptyLine
                  originalText := "" }]
      else
        acc ++ [docxParagraphChunk acc.length info]
    else if tag = "td" ∨ tag = "th" then
      acc ++ [docxCellChunk acc.length tag info]
    else if tag = "br" then
      acc ++ [{ id := "docx-br-" ++ natToString acc.length
                type := ChunkType.emptyLine
                originalText := "" }]
    else
      walkList acc children

/-- The child loop `for (let i = 0; i < el.childNodes.length; i++)
walk(el.childNodes[i])` of the fall-through branch. -/
def walkList (acc : List DocumentChunk) : List DomNode → List DocumentChunk
  | [] => acc
  | n :: rest => walkList (walk acc n) rest

end

/-- processDocx (fileService.ts lines 77-151), as a pure function of the
parsed document body: `walk(doc.body)` starting from an empty chunk
array. -/
def processDocx (body : DomNode) : List DocumentChunk :=
  walk [] body

/-- A positioned text fragment of a PDF page: `item.str` plus the
vertical coordinate `item.transform[5]` (modelled as an integer; the
properties proved here do not depend on fractional coordinates). -/
structure PdfItem where
  str : String
  y : Int
  deriving DecidableEq, Repr

/-- The mutable state of the per-page fragment loop of processPdf:
the chunks pushed so far, `currentLine`, and `lastY` (initialised to the
sentinel -1 exactly as in the source). -/
structure PdfState where
  chunks : List DocumentChunk
  currentLine : String
  lastY : Int
  deriving DecidableEq, Repr

/-- The line flush of processPdf (fileService.ts lines 172-184): pushes a
trimmed paragraph chunk, or an empty-line chunk when the accumulated line
is blank, and clears `currentLine`. -/
def pdfFlush (st : PdfState) : PdfState :=
  if jsTrim st.currentLine ≠ "" then
    { chunks := st.chunks ++
        [{ id := "pdf-p-" ++ natToString st.chunks.length
           type := ChunkType.paragraph
           originalText := jsTrim st.currentLine
           metadata := some { alignment := some "left" } }]
      currentLine := ""
      lastY := st.lastY }
  else
    { chunks := st.chunks ++
        [{ id := "pdf-e-" ++ natToString st.chunks.length
           type := ChunkType.emptyLine
           originalText := "" }]
      currentLine := ""
      lastY := st.lastY }

/-- One iteration of the fragment loop (fileService.ts lines 170-187):
flush when the vertical coordinate jumps by more than 10, then append the
fragment text with a separating space and record its coordinate. -/
def pdfStep (st : PdfState) (item : PdfItem) : PdfState :=
  let st1 := if st.lastY ≠ -1 ∧ (item.y - st.lastY).natAbs > 10
             then pdfFlush st else st
  { chunks := st1.chunks
    currentLine := st1.currentLine ++ " " ++ item.str
    lastY := item.y }

/-- The per-page body of processPdf (fileService.ts lines 163-197):
fold the fragment loop from a fresh line state, then push a final
paragraph only when the remaining accumulated line is non-blank. -/
def processPdfPage (chunks : List DocumentChunk) (items : List PdfItem) :
    List DocumentChunk :=
  let final := items.foldl pdfStep
    { chunks := chunks, currentLine := "", lastY := -1 }
  if jsTrim final.currentLine ≠ "" then
    final.chunks ++
      [{ id := "pdf-p-" ++ natToString final.chunks.length
         type := ChunkType.paragraph
         originalText := jsTrim final.currentLine
         metadata := some { alignment := some "left" } }]
  else
    final.chunks

/-- processPdf (fileService.ts lines 153-203) as a pure function of the
per-page fragment streams obtained from the PDF renderer. -/
def processPdf (pages : List (List PdfItem)) : List DocumentChunk :=
  pages.foldl processPdfPage []

end FileSvc

/-- Modelled from the spec: the `ENGINES` constant table is not under
src/ (only its importers are); the embedded batching logic only compares
the selected engine id against the flash engine id, so the table is
modelled by that single opaque identifier. -/
def ENGINES_FLASH : String := "flash-engine"

/-- Structural worker for `chunksOf`; `fuel` bounds the number of batches
and any `fuel ≥ l.length` is enough, since every batch consumes at least
one element. -/
def chunksOfAux (bs : Nat) : Nat → List α → List (List α)
  | _, [] => []
  | 0, l => [l]
  | fuel + 1, x :: xs => (x :: xs.take (bs - 1)) :: chunksOfAux bs fuel (xs.drop (bs - 1))

/-- The batch slicing loop shared by every translateChunks revision:
`for (i = 0; i < chunks.length; i += BATCH_SIZE) chunks.slice(i, i + BATCH_SIZE)`.
For a positive batch size `bs` this is exactly the source loop; the source
never calls it with zero. -/
def chunksOf (bs : Nat) (l : List α) : List (List α) :=
  chunksOfAux bs l.length l

/- First geminiService revision (file lines 6-116): the "Real Estate"
translator whose translateBatch maps over the parsed model array without
any length check. -/
namespace GSvc1

/-- `BATCH_SIZE = engine === ENGINES.FLASH ? 12 : 8` (line 19). -/
def BATCH_SIZE (engine : String) : Nat :=
  if engine = ENGINES_FLASH then 12 else 8

/-- The pure return value of the first revision's translateBatch
(lines 99-100): the parsed model response (a JSON string array) mapped
with the sentinel substitution; the batch argument does not constrain the
result's length. -/
def translateBatch (batch : List DocumentChunk) (parsed : List String) :
    List String :=
  parsed.map (fun val => if val = "---SKIP---" then "" else val)

/-- The batching loop of the first revision's translateChunks
(lines 30-49); `respond i` is the parsed JSON array returned by the model
call for batch `i`. -/
def translateChunks (chunks : List DocumentChunk) (engine : String)
    (respond : Nat → List String) : List String :=
  (((chunksOf (BATCH_SIZE engine) chunks).enum).map
    (fun p => translateBatch p.2 (respond p.1))).flatten

end GSvc1

/- Second geminiService revision (file lines 122-293): translateBatch
validates the parsed value is an array of exactly the batch length and
throws a synchronization error otherwise. -/
namespace GSvc2

/-- `BATCH_SIZE = engine === ENGINES.FLASH ? 12 : 8` (line 136). -/
def BATCH_SIZE (engine : String) : Nat :=
  if engine = ENGINES_FLASH then 12 else 8

/-- The second revision's translateBatch (lines 233-278); `parsed` is
`none` when the parsed response is not an array, `some arr` when it is the
string array `arr`.  The wrong-length check at lines 273-275 throws. -/
def translateBatch (batch : List DocumentChunk)
    (parsed : Option (List String)) : Except String (List String) :=
  match parsed with
  | none => Except.error "Synchronization Error: Model returned malformed batch."
  | some arr =>
    if arr.length ≠ batch.length then
      Except.error "Synchronization Error: Model returned malformed batch."
    else
      Except.ok (arr.map (fun val => if val = "---SKIP---" then "" else val))

/-- The sequential batch loop of the second revision's translateChunks
(lines 147-165): each batch's results are appended, and a batch failure is
rethrown, aborting the job. -/
def runBatches (respond : Nat → Option (List String)) :
    Nat → List (List DocumentChunk) → Except String (List String)
  | _, [] => Except.ok []
  | i, b :: rest =>
    match translateBatch b (respond i) with
    | Except.error e => Except.error e
    | Except.ok rs =>
      match runBatches respond (i + 1) rest with
      | Except.error e => Except.error e
      | Except.ok more => Except.ok (rs ++ more)

/-- The second revision's translateChunks (lines 126-168). -/
def translateChunks (chunks : List DocumentChunk) (engine : String)
    (respond : Nat → Option (List String)) : Except String (List String) :=
  runBatches respond 0 (chunksOf (BATCH_SIZE engine) chunks)

end GSvc2

/- Third geminiService revision (file lines 299-475): translateBatch maps
over the batch itself, forcing empty-line positions to the empty string
and filling falsy or missing model entries with the chunk's original
text. -/
namespace GSvc3

/-- The structural sentinel of the third revision (line 414). -/
def STRUCT_MARKER : String := "---STRUCTURAL_WHITESPACE_MARKER---"

/-- The success-path return of the third revision's translateBatch
(lines 447-452): `batch.map((c, i) => ...)` reading `parsed[i]`
(`none` models an out-of-range read). -/
def translateBatch (batch : List DocumentChunk) (parsed : List String) :
    List String :=
  jsMapIdx (fun i c =>
    if c.type = ChunkType.emptyLine then ""
    else
      match parsed.get? i with
      | some val =>
        if val = STRUCT_MARKER then ""
        else if val = "" then c.originalText
        else val
      | none => c.originalText) batch

/-- The catch branch of the third revision's translateBatch
(lines 453-459): non-credential failures degrade the whole batch to its
original texts. -/
def translateBatchDegraded (batch : List DocumentChunk) : List String :=
  batch.map (fun c => c.originalText)

end GSvc3

/- First App.tsx revision: the startTranslation orchestrator
(lines 157-232) and its merge of translated strings onto the chunk
sequence. -/
namespace AppMain

/-- The two translation paths startTranslation can take. -/
inductive TranslationPath where
  | vision
  | standard
  deriving DecidableEq, Repr

/-- The dispatch condition of startTranslation (lines 164 and 175):
`(chunks.length === 0 || chunks.every(c => !c.originalText.trim())) &&
state.originalFileData`, re-checked against `originalFileData` at the
branch itself. -/
def startTranslationPath (chunks : List DocumentChunk)
    (originalFileData : Option String) : TranslationPath :=
  let hasData : Bool := match originalFileData with
    | some d => d != ""
    | none => false
  if (chunks.isEmpty || chunks.all (fun c => jsTrim c.originalText == "")) && hasData then
    TranslationPath.vision
  else
    TranslationPath.standard

/-- The JavaScript expression `translatedTexts[i] || chunk.originalText`
of the merge: an absent entry (array shorter than the chunk list) and the
empty string are both falsy and fall back to the chunk's original text. -/
def mergeValue (chunk : DocumentChunk) (entry : Option String) : String :=
  match entry with
  | some t => if t = "" then chunk.originalText else t
  | none => chunk.originalText

/-- The merge of the standard path (lines 205-207):
`chunks.map((chunk, i) => ({...chunk, translatedText: translatedTexts[i] || chunk.originalText}))`. -/
def mergeTranslatedChunks (chunks : List DocumentChunk)
    (translatedTexts : List String) : List DocumentChunk :=
  jsMapIdx (fun i chunk =>
    { chunk with
      translatedText := some (mergeValue chunk (translatedTexts.get? i)) }) chunks

end AppMain

/-- The detectLanguage of every geminiService revision
(first revision lines 103-113): `threw` models the call raising, `text`
models `response.text` (`none` for an absent field).  The returned value
is `(response.text || "en").trim().toLowerCase().substring(0, 2)`, with
`"en"` on any thrown failure. -/
def detectLanguage (threw : Bool) (text : Option String) : String :=
  if threw then "en"
  else
    let t := text.getD ""
    let t := if t = "" then "en" else t
    String.mk ((jsToLower (jsTrim t)).toList.take 2)


/-- Equality of modelled call outcomes is decidable (used to evaluate the
translators on concrete inputs). -/
instance : DecidableEq (Except String (List String)) := fun a b =>
  match a, b with
  | Except.error e1, Except.error e2 =>
    decidable_of_iff (e1 = e2) (by simp)
  | Except.ok l1, Except.ok l2 =>
    decidable_of_iff (l1 = l2) (by simp)
  | Except.error _, Except.ok _ => isFalse (by intro h; cases h)
  | Except.ok _, Except.error _ => isFalse (by intro h; cases h)

/-!
Theorems.  General lemmas about the indexed map and the batch slicing
loop come first; the claim-level properties follow.
-/

theorem mapIdxFrom_length (f : Nat → α → β) (k : Nat) (l : List α) :
    (mapIdxFrom f k l).length = l.length := by
  induction l generalizing k with
  | nil => rfl
  | cons a as ih => simp [mapIdxFrom, ih]

theorem mapIdxFrom_get? (f : Nat → α → β) (k i : Nat) (l : List α) :
    (mapIdxFrom f k l).get? i = (l.get? i).map (f (k + i)) := by
  induction l generalizing k i with
  | nil => simp [mapIdxFrom]
  | cons a as ih =>
    cases i with
    | zero => simp [mapIdxFrom]
    | succ j =>
      simp only [mapIdxFrom, List.get?_cons_succ, ih]
      have h : k + (j + 1) = (k + 1) + j := by omega
      rw [h]

theorem jsMapIdx_length (f : Nat → α → β) (l : List α) :
    (jsMapIdx f l).length = l.length :=
  mapIdxFrom_length f 0 l

theorem jsMapIdx_get? (f : Nat → α → β) (i : Nat) (l : List α) :
    (jsMapIdx f l).get? i = (l.get? i).map (f i) := by
  have h := mapIdxFrom_get? f 0 i l
  simpa [jsMapIdx] using h

theorem mapIdxFrom_forall (P : β → Prop) (f : Nat → α → β)
    (hf : ∀ i a, P (f i a)) :
    ∀ (k : Nat) (l : List α), ∀ b ∈ mapIdxFrom f k l, P b := by
  intro k l
  induction l generalizing k with
  | nil => intro b hb; simp [mapIdxFrom] at hb
  | cons a as ih =>
    intro b hb
    simp only [mapIdxFrom, List.mem_cons] at hb
    rcases hb with h | h
    · subst h; exact hf k a
    · exact ih (k + 1) b h

theorem chunksOfAux_congr (bs : Nat) :
    ∀ (f1 f2 : Nat) (l : List α), l.length ≤ f1 → l.length ≤ f2 →
      chunksOfAux bs f1 l = chunksOfAux bs f2 l := by
  intro f1
  induction f1 with
  | zero =>
    intro f2 l h1 h2
    have : l = [] := List.length_eq_zero.mp (Nat.le_zero.mp h1)
    subst this
    cases f2 <;> rfl
  | succ f1 ih =>
    intro f2 l h1 h2
    cases l with
    | nil => cases f2 <;> rfl
    | cons x xs =>
      cases f2 with
      | zero => simp at h2
      | succ f2 =>
        simp only [chunksOfAux]
        congr 1
        apply ih
        · simp only [List.length_drop]
          simp only [List.length_cons] at h1
          omega
        · simp only [List.length_drop]
          simp only [List.length_cons] at h2
          omega

theorem chunksOf_nil (bs : Nat) : chunksOf bs ([] : List α) = [] := rfl

theorem chunksOf_cons (bs : Nat) (x : α) (xs : List α) :
    chunksOf bs (x :: xs) =
      (x :: xs.take (bs - 1)) :: chunksOf bs (xs.drop (bs - 1)) := by
  show chunksOfAux bs (xs.length + 1) (x :: xs) = _
  simp only [chunksOfAux]
  congr 1
  apply chunksOfAux_congr
  · simp only [List.length_drop]
    omega
  · exact Nat.le_refl _

theorem chunksOf_join (bs : Nat) (l : List α) :
    (chunksOf bs l).flatten = l := by
  have H : ∀ (n : Nat) (l : List α), l.length ≤ n → (chunksOf bs l).flatten = l := by
    intro n
    induction n with
    | zero =>
      intro l hl
      have : l = [] := List.length_eq_zero.mp (Nat.le_zero.mp hl)
      subst this
      simp [chunksOf_nil]
    | succ n ih =>
      intro l hl
      cases l with
      | nil => simp [chunksOf_nil]
      | cons x xs =>
        have hlen : (xs.drop (bs - 1)).length ≤ n := by
          simp only [List.length_drop]
          simp only [List.length_cons] at hl
          omega
        rw [chunksOf_cons]
        simp only [List.flatten_cons]
        rw [ih (xs.drop (bs - 1)) hlen]
        rw [List.cons_append, List.take_append_drop]
  exact H l.length l (Nat.le_refl _)

theorem chunksOf_size_le (bs : Nat) (l : List α) :
    ∀ b ∈ chunksOf bs l, b.length ≤ max bs 1 := by
  have H : ∀ (n : Nat) (l : List α), l.length ≤ n →
      ∀ b ∈ chunksOf bs l, b.length ≤ max bs 1 := by
    intro n
    induction n with
    | zero =>
      intro l hl b hb
      have : l = [] := List.length_eq_zero.mp (Nat.le_zero.mp hl)
      subst this
      simp [chunksOf_nil] at hb
    | succ n ih =>
      intro n' hl b hb
      cases n' with
      | nil => simp [chunksOf_nil] at hb
      | cons x xs =>
        have hlen : (xs.drop (bs - 1)).length ≤ n := by
          simp only [List.length_drop]
          simp only [List.length_cons] at hl
          omega
        rw [chunksOf_cons] at hb
        rcases List.mem_cons.mp hb with h | h
        · subst h
          simp only [List.length_cons]
          have := List.length_take_le (bs - 1) xs
          omega
        · exact ih (xs.drop (bs - 1)) hlen b h
  exact H l.length l (Nat.le_refl _)

theorem processPdfPage_nil (acc : List DocumentChunk) :
    FileSvc.processPdfPage acc [] = acc := by
  unfold FileSvc.processPdfPage
  simp only [List.foldl_nil]
  have h : jsTrim "" = "" := rfl
  simp [h]

/-- C4: for every uploaded file with nonzero bytes whose extraction
produced zero chunks, startTranslation dispatches to the vision fallback
(translateScannedDocument) and not to the standard batch translation
path. -/
theorem zeroChunks_invokes_vision (chunks : List DocumentChunk)
    (fileData : String) (hchunks : chunks = []) (hdata : fileData ≠ "") :
    AppMain.startTranslationPath chunks (some fileData) =
        AppMain.TranslationPath.vision ∧
      AppMain.TranslationPath.vision ≠ AppMain.TranslationPath.standard := by
  subst hchunks
  refine ⟨?_, by intro h; cases h⟩
  simp [AppMain.startTranslationPath, hdata]

/-- Witness for `zeroChunks_invokes_vision` at a concrete non-empty
base64 payload. -/
theorem zeroChunks_invokes_vision_witness :
    AppMain.startTranslationPath [] (some "JVBERi0xLjQ=") =
        AppMain.TranslationPath.vision ∧
      AppMain.TranslationPath.vision ≠ AppMain.TranslationPath.standard :=
  zeroChunks_invokes_vision [] "JVBERi0xLjQ=" rfl (by decide)

/-- C7: when no page yields any positioned text fragment, processPdf
returns the empty chunk sequence (the vision-fallback trigger) instead of
raising. -/
theorem processPdf_no_fragments_empty (pages : List (List FileSvc.PdfItem))
    (h : ∀ p ∈ pages, p = []) : FileSvc.processPdf pages = [] := by
  have H : ∀ (ps : List (List FileSvc.PdfItem)) (acc : List DocumentChunk),
      (∀ p ∈ ps, p = []) → ps.foldl FileSvc.processPdfPage acc = acc := by
    intro ps
    induction ps with
    | nil => intro acc _; rfl
    | cons p rest ih =>
      intro acc hall
      have hp : p = [] := hall p (List.mem_cons_self _ _)
      subst hp
      rw [List.foldl_cons, processPdfPage_nil]
      exact ih acc (fun q hq => hall q (List.mem_cons_of_mem _ hq))
  exact H pages [] h

/-- Witness for `processPdf_no_fragments_empty`: three fragment-free
pages. -/
theorem processPdf_no_fragments_empty_witness :
    FileSvc.processPdf [[], [], []] = [] :=
  processPdf_no_fragments_empty [[], [], []] (by simp)

/-- C10: the merge of the standard path defines translatedText at every
position: the i-th returned string when it exists and is non-empty, and
the chunk's own originalText when the entry is empty or the returned array
is too short. -/
theorem merge_translatedText_defined (chunks : List DocumentChunk)
    (texts : List String) :
    (AppMain.mergeTranslatedChunks chunks texts).length = chunks.length ∧
    (∀ i c, chunks.get? i = some c →
      ∃ c2, (AppMain.mergeTranslatedChunks chunks texts).get? i = some c2 ∧
        c2.originalText = c.originalText ∧
        ((∃ t, texts.get? i = some t ∧ t ≠ "" ∧ c2.translatedText = some t) ∨
          ((texts.get? i = none ∨ texts.get? i = some "") ∧
            c2.translatedText = some c.originalText))) := by
  constructor
  · exact jsMapIdx_length _ chunks
  · intro i c hc
    refine ⟨{ c with translatedText := some (AppMain.mergeValue c (texts.get? i)) }, ?_, rfl, ?_⟩
    · rw [AppMain.mergeTranslatedChunks, jsMapIdx_get?, hc]
      rfl
    · cases ht : texts.get? i with
      | none =>
        exact Or.inr ⟨Or.inl rfl, by simp [AppMain.mergeValue, ht]⟩
      | some t =>
        by_cases h0 : t = ""
        · subst h0
          exact Or.inr ⟨Or.inr rfl, by simp [AppMain.mergeValue, ht]⟩
        · exact Or.inl ⟨t, rfl, h0, by simp [AppMain.mergeValue, ht, h0]⟩

/-- Witness for `merge_translatedText_defined`: a two-chunk sequence
merged with a one-string result array. -/
theorem merge_translatedText_defined_witness :
    ∃ c2, (AppMain.mergeTranslatedChunks
        [{ id := "a", type := ChunkType.paragraph, originalText := "orig" },
         { id := "b", type := ChunkType.paragraph, originalText := "o2" }]
        ["T1"]).get? 1 = some c2 ∧
      c2.originalText = "o2" ∧
      ((∃ t, (["T1"] : List String).get? 1 = some t ∧ t ≠ "" ∧
          c2.translatedText = some t) ∨
        (((["T1"] : List String).get? 1 = none ∨
            (["T1"] : List String).get? 1 = some "") ∧
          c2.translatedText = some "o2")) :=
  (merge_translatedText_defined
    [{ id := "a", type := ChunkType.paragraph, originalText := "orig" },
     { id := "b", type := ChunkType.paragraph, originalText := "o2" }]
    ["T1"]).2 1 _ rfl

/-- C2 (amended): in the translateBatch revision at geminiService lines
448-451 every empty-line position of the batch becomes the empty string,
whatever strings the parsed model array holds. -/
theorem emptyLine_roundTrip_v3 (batch : List DocumentChunk)
    (parsed : List String) (i : Nat) (c : DocumentChunk)
    (hb : batch.get? i = some c) (ht : c.type = ChunkType.emptyLine) :
    (GSvc3.translateBatch batch parsed).get? i = some "" := by
  rw [GSvc3.translateBatch, jsMapIdx_get?, hb]
  simp [ht]

/-- Witness for `emptyLine_roundTrip_v3`: a model that replies "Bonjour"
for the empty-line position. -/
theorem emptyLine_roundTrip_v3_witness :
    (GSvc3.translateBatch
      [{ id := "e0", type := ChunkType.emptyLine, originalText := "" }]
      ["Bonjour"]).get? 0 = some "" :=
  emptyLine_roundTrip_v3 _ ["Bonjour"] 0
    { id := "e0", type := ChunkType.emptyLine, originalText := "" } rfl rfl

/-- C2 counterexample: in the translateBatch revision at geminiService
lines 52-101 the result at an empty-line position is whatever non-sentinel
string the model returned there, not the empty string. -/
theorem emptyLine_model_override_cex :
    ({ id := "e0", type := ChunkType.emptyLine, originalText := "" }
        : DocumentChunk).type = ChunkType.emptyLine ∧
    (GSvc1.translateBatch
      [{ id := "e0", type := ChunkType.emptyLine, originalText := "" }]
      ["Bonjour"]).get? 0 = some "Bonjour" ∧
    ("Bonjour" : String) ≠ "" := by decide

/-- C9 counterexample: on a whitespace-only model response detectLanguage
returns the empty string, which is not a two-letter code. -/
theorem detectLanguage_two_letter_cex :
    detectLanguage false (some " ") = "" ∧
    (detectLanguage false (some " ")).length ≠ 2 := by decide

/-- C9 (amended): detectLanguage returns "en" on a thrown call or an
absent/empty response text, never returns more than two characters, and
when the trimmed lowercased response has at least two characters it
returns exactly the first two — but those characters are whatever the
model sent, not necessarily two lowercase letters. -/
theorem detectLanguage_contract :
    (∀ t, detectLanguage true t = "en") ∧
    (detectLanguage false none = "en") ∧
    (∀ t, (detectLanguage false t).length ≤ 2) ∧
    (∀ s a b rest, s ≠ "" → (jsToLower (jsTrim s)).toList = a :: b :: rest →
      detectLanguage false (some s) = String.mk [a, b]) := by
  refine ⟨fun t => rfl, rfl, ?_, ?_⟩
  · intro t
    have key : ∀ l : List Char, (String.mk (l.take 2)).length ≤ 2 := by
      intro l
      show (l.take 2).length ≤ 2
      exact List.length_take_le 2 l
    simp only [detectLanguage, Bool.false_eq_true, if_false]
    exact key _
  · intro s a b rest hs hl
    simp only [detectLanguage, Bool.false_eq_true, if_false, Option.getD_some,
      if_neg hs, hl]
    rfl

/-- Witness for `detectLanguage_contract`: a padded mixed-case response is
cut to its first two lowered characters. -/
theorem detectLanguage_contract_witness :
    detectLanguage false (some " French ") = String.mk ['f', 'r'] :=
  detectLanguage_contract.2.2.2 " French " 'f' 'r' ['e', 'n', 'c', 'h']
    (by decide) (by decide)

theorem string_length_eq_zero_iff (s : String) : s.length = 0 ↔ s = "" := by
  constructor
  · intro h
    cases s with
    | mk data =>
      have hd : data = [] := List.length_eq_zero.mp h
      subst hd
      rfl
  · intro h
    rw [h]
    rfl

/-- C5 counterexample: for the input consisting of a blank first line and
the text `Title` on the second, the first non-trivial line is classified
`paragraph`, not `heading` — processTxt gives the heading role to line
index 0 only. -/
theorem processTxt_first_line_cex :
    FileSvc.splitLines "\nTitle" = ["", "Title"] ∧
    jsTrim "" = "" ∧ jsTrim "Title" ≠ "" ∧
    (FileSvc.processTxt "\nTitle").map DocumentChunk.type =
      [ChunkType.emptyLine, ChunkType.paragraph] ∧
    ChunkType.paragraph ≠ ChunkType.heading := by decide

/-- C5 (amended): processTxt splits on LF/CRLF, yields one chunk per line
in order; blank or whitespace-only lines become empty-line; line index 0,
when non-blank, becomes a bold level-1 heading; every other non-blank line
becomes a paragraph (a blank first line therefore leaves the document with
no heading); and the input "Title\n\nBody line" yields
[heading, empty-line, paragraph]. -/
theorem processTxt_line_classification :
    (∀ text, (FileSvc.processTxt text).length = (FileSvc.splitLines text).length) ∧
    (∀ text i line, (FileSvc.splitLines text).get? i = some line →
      ∃ c, (FileSvc.processTxt text).get? i = some c ∧
        (jsTrim line = "" → c.type = ChunkType.emptyLine ∧ c.originalText = "") ∧
        (jsTrim line ≠ "" → i = 0 →
          c.type = ChunkType.heading ∧ c.originalText = line ∧
          c.metadata = some { alignment := some "left", isBold := some true,
                              level := some 1 }) ∧
        (jsTrim line ≠ "" → i ≠ 0 →
          c.type = ChunkType.paragraph ∧ c.originalText = line)) ∧
    (FileSvc.processTxt "Title\n\nBody line" =
      [{ id := "chunk-0", type := ChunkType.heading, originalText := "Title",
         metadata := some { alignment := some "left", isBold := some true,
                            level := some 1 } },
       { id := "txt-empty-1", type := ChunkType.emptyLine, originalText := "" },
       { id := "chunk-2", type := ChunkType.paragraph,
         originalText := "Body line",
         metadata := some { alignment := some "left",
                            isBold := some false } }]) := by
  refine ⟨fun text => jsMapIdx_length _ _, ?_, by decide⟩
  intro text i line hline
  refine ⟨FileSvc.processTxtLine i line, ?_, ?_, ?_, ?_⟩
  · rw [FileSvc.processTxt, jsMapIdx_get?, hline]
    rfl
  · intro htrim
    have hlen : (jsTrim line).length = 0 := by rw [htrim]; rfl
    simp [FileSvc.processTxtLine, hlen]
  · intro htrim hi
    have hlen : ¬ ((jsTrim line).length = 0) :=
      fun h => htrim ((string_length_eq_zero_iff _).mp h)
    subst hi
    simp [FileSvc.processTxtLine, hlen]
  · intro htrim hi
    have hlen : ¬ ((jsTrim line).length = 0) :=
      fun h => htrim ((string_length_eq_zero_iff _).mp h)
    simp [FileSvc.processTxtLine, hlen, hi]

/-- Witness for `processTxt_line_classification` at line index 2 of the
Scenario A input. -/
theorem processTxt_line_classification_witness :
    ∃ c, (FileSvc.processTxt "Title\n\nBody line").get? 2 = some c ∧
      (jsTrim "Body line" = "" →
        c.type = ChunkType.emptyLine ∧ c.originalText = "") ∧
      (jsTrim "Body line" ≠ "" → 2 = 0 →
        c.type = ChunkType.heading ∧ c.originalText = "Body line" ∧
        c.metadata = some { alignment := some "left", isBold := some true,
                            level := some 1 }) ∧
      (jsTrim "Body line" ≠ "" → 2 ≠ 0 →
        c.type = ChunkType.paragraph ∧ c.originalText = "Body line") :=
  processTxt_line_classification.2.1 "Title\n\nBody line" 2 "Body line"
    (by decide)

theorem GSvc1_batches_length (respond : Nat → List String) :
    ∀ (L : List (List DocumentChunk)) (k : Nat),
      (∀ i b, L.get? i = some b → (respond (k + i)).length = b.length) →
      ((L.enumFrom k).map
        (fun p => GSvc1.translateBatch p.2 (respond p.1))).flatten.length =
        L.flatten.length := by
  intro L
  induction L with
  | nil => intro k _; rfl
  | cons b rest ih =>
    intro k h
    have h0 : (respond k).length = b.length := by
      have := h 0 b rfl
      simpa using this
    have hrec := ih (k + 1) (fun i b' hb => by
      have hidx : k + 1 + i = k + (i + 1) := by omega
      rw [hidx]
      exact h (i + 1) b' hb)
    simp only [List.enumFrom, List.map_cons, List.flatten_cons,
      List.length_append, hrec]
    simp [GSvc1.translateBatch, h0]

/-- C1 (amended): the first revision's translateChunks partitions the
chunk sequence into contiguous batches of the fixed batch size (their
concatenation restores the input), and the concatenation of the per-batch
result arrays has length equal to the input chunk count provided every
batch's model call returns exactly as many strings as its batch holds —
with no length check in this revision, a wrong-length model array breaks
the equality. -/
theorem translateChunks_length_preserved (chunks : List DocumentChunk)
    (engine : String) (respond : Nat → List String)
    (h : ∀ i b, (chunksOf (GSvc1.BATCH_SIZE engine) chunks).get? i = some b →
      (respond i).length = b.length) :
    (chunksOf (GSvc1.BATCH_SIZE engine) chunks).flatten = chunks ∧
    (GSvc1.translateChunks chunks engine respond).length = chunks.length := by
  refine ⟨chunksOf_join _ _, ?_⟩
  have key := GSvc1_batches_length respond
    (chunksOf (GSvc1.BATCH_SIZE engine) chunks) 0 (by simpa using h)
  rw [GSvc1.translateChunks]
  rw [show (chunksOf (GSvc1.BATCH_SIZE engine) chunks).enum =
      (chunksOf (GSvc1.BATCH_SIZE engine) chunks).enumFrom 0 from rfl]
  rw [key, chunksOf_join]

/-- Witness for `translateChunks_length_preserved`: one paragraph chunk
and a model that answers with a one-string array. -/
theorem translateChunks_length_preserved_witness :
    (chunksOf (GSvc1.BATCH_SIZE ENGINES_FLASH)
      ([{ id := "c0", type := ChunkType.paragraph, originalText := "Hello" }]
        : List DocumentChunk)).flatten =
      [{ id := "c0", type := ChunkType.paragraph, originalText := "Hello" }] ∧
    (GSvc1.translateChunks
      [{ id := "c0", type := ChunkType.paragraph, originalText := "Hello" }]
      ENGINES_FLASH (fun _ => ["Bonjour"])).length =
      ([{ id := "c0", type := ChunkType.paragraph, originalText := "Hello" }]
        : List DocumentChunk).length :=
  translateChunks_length_preserved
    ([{ id := "c0", type := ChunkType.paragraph, originalText := "Hello" }]
      : List DocumentChunk)
    ENGINES_FLASH (fun _ => ["Bonjour"])
    (by
      intro i b hb
      have hcomp : chunksOf (GSvc1.BATCH_SIZE ENGINES_FLASH)
          ([{ id := "c0", type := ChunkType.paragraph, originalText := "Hello" }]
            : List DocumentChunk) =
          [[{ id := "c0", type := ChunkType.paragraph,
              originalText := "Hello" }]] := by decide
      rw [hcomp] at hb
      cases i with
      | zero =>
        simp only [List.get?_cons_zero, Option.some.injEq] at hb
        subst hb
        rfl
      | succ j => simp at hb)

/-- C1 counterexample: with a model call that returns an empty JSON array
for the single batch, the concatenated result of the first revision's
translateChunks is empty while the input holds one chunk. -/
theorem translateChunks_length_cex :
    (GSvc1.translateChunks
      [{ id := "c0", type := ChunkType.paragraph, originalText := "Hello" }]
      ENGINES_FLASH (fun _ => [])).length ≠
    ([{ id := "c0", type := ChunkType.paragraph, originalText := "Hello" }]
      : List DocumentChunk).length := by decide

theorem GSvc2_translateBatch_ok (batch : List DocumentChunk)
    (parsed : Option (List String)) (rs : List String)
    (h : GSvc2.translateBatch batch parsed = Except.ok rs) :
    ∃ arr, parsed = some arr ∧ arr.length = batch.length := by
  cases parsed with
  | none => simp [GSvc2.translateBatch] at h
  | some arr =>
    refine ⟨arr, rfl, ?_⟩
    by_cases hl : arr.length = batch.length
    · exact hl
    · simp [GSvc2.translateBatch, hl] at h

theorem GSvc2_runBatches_ok (respond : Nat → Option (List String)) :
    ∀ (L : List (List DocumentChunk)) (k : Nat) (res : List String),
      GSvc2.runBatches respond k L = Except.ok res →
      ∀ i b, L.get? i = some b →
        ∃ arr, respond (k + i) = some arr ∧ arr.length = b.length := by
  intro L
  induction L with
  | nil =>
    intro k res _ i b hb
    simp at hb
  | cons b0 rest ih =>
    intro k res h i b hb
    rw [GSvc2.runBatches] at h
    cases h1 : GSvc2.translateBatch b0 (respond k) with
    | error e => rw [h1] at h; cases h
    | ok rs =>
      rw [h1] at h
      cases h2 : GSvc2.runBatches respond (k + 1) rest with
      | error e => rw [h2] at h; cases h
      | ok more =>
        cases i with
        | zero =>
          simp only [List.get?_cons_zero, Option.some.injEq] at hb
          subst hb
          simpa using GSvc2_translateBatch_ok b0 (respond k) rs h1
        | succ j =>
          have step := ih (k + 1) more h2 j b (by simpa using hb)
          have hidx : k + 1 + j = k + (j + 1) := by omega
          rw [hidx] at step
          exact step

/-- C3 (amended): in the revision with the explicit length check
(geminiService lines 272-277), a parsed model array whose length differs
from the batch length makes translateBatch throw the synchronization
error, and translateChunks — which runs every batch through that same
check — completes successfully only if every batch's response was an
array of exactly its batch's length, so a wrong-length array is never
partially accepted there; the revision at lines 99-100 performs no such
check and passes the wrong-length array through. -/
theorem wrongLength_batch_rejected_v2 :
    (∀ (batch : List DocumentChunk) (arr : List String),
      arr.length ≠ batch.length →
        GSvc2.translateBatch batch (some arr) =
          Except.error "Synchronization Error: Model returned malformed batch.") ∧
    (∀ (chunks : List DocumentChunk) (engine : String)
        (respond : Nat → Option (List String)) (res : List String),
      GSvc2.translateChunks chunks engine respond = Except.ok res →
      ∀ i b, (chunksOf (GSvc2.BATCH_SIZE engine) chunks).get? i = some b →
        ∃ arr, respond i = some arr ∧ arr.length = b.length) := by
  constructor
  · intro batch arr h
    simp [GSvc2.translateBatch, h]
  · intro chunks engine respond res hok i b hb
    have := GSvc2_runBatches_ok respond
      (chunksOf (GSvc2.BATCH_SIZE engine) chunks) 0 res hok i b hb
    simpa using this

/-- Witness for `wrongLength_batch_rejected_v2`: an empty parsed array
against a one-chunk batch is rejected. -/
theorem wrongLength_batch_rejected_v2_witness :
    GSvc2.translateBatch
      [{ id := "c0", type := ChunkType.paragraph, originalText := "A" }]
      (some []) =
      Except.error "Synchronization Error: Model returned malformed batch." :=
  wrongLength_batch_rejected_v2.1
    [{ id := "c0", type := ChunkType.paragraph, originalText := "A" }]
    [] (by decide)

/-- C3 counterexample: the source holds no single uniform policy — for
the same two-chunk batch and the same wrong-length (one-string) parsed
array, the revision at geminiService lines 99-100 returns the array as a
normal result (the wrong-length output is accepted), while the revision at
lines 272-277 fails the batch. -/
theorem wrongLength_policy_nonuniform_cex :
    GSvc1.translateBatch
      [{ id := "c0", type := ChunkType.paragraph, originalText := "A" },
       { id := "c1", type := ChunkType.paragraph, originalText := "B" }]
      ["X"] = ["X"] ∧
    GSvc2.translateBatch
      [{ id := "c0", type := ChunkType.paragraph, originalText := "A" },
       { id := "c1", type := ChunkType.paragraph, originalText := "B" }]
      (some ["X"]) =
      Except.error "Synchronization Error: Model returned malformed batch." ∧
    (["X"] : List String).length ≠
      ([{ id := "c0", type := ChunkType.paragraph, originalText := "A" },
        { id := "c1", type := ChunkType.paragraph, originalText := "B" }]
        : List DocumentChunk).length := by decide

theorem checkboxMatch_iff (t : String) :
    FileSvc.checkboxMatch t = true ↔
      (∃ c1 c2 c3 rest, t.toList = c1 :: c2 :: c3 :: rest ∧
        (c1 = '[' ∨ c1 = '(') ∧
        (c2 = 'x' ∨ c2 = 'X' ∨ isSpaceClass c2 = true) ∧
        (c3 = ']' ∨ c3 = ')')) ∨
      (∃ c1 rest, t.toList = c1 :: rest ∧
        (c1 = '☐' ∨ c1 = '☑' ∨ c1 = '☒')) := by
  cases h : t.data with
  | nil => simp [FileSvc.checkboxMatch, String.toList, h]
  | cons c1 t1 =>
    cases t1 with
    | nil =>
      simp [FileSvc.checkboxMatch, String.toList, h, or_assoc]
    | cons c2 t2 =>
      cases t2 with
      | nil =>
        simp [FileSvc.checkboxMatch, String.toList, h, or_assoc]
      | cons c3 rest =>
        simp only [FileSvc.checkboxMatch, String.toList, h, Bool.or_eq_true,
          Bool.and_eq_true, decide_eq_true_eq, or_assoc, and_assoc]
        constructor
        · intro hl
          rcases hl with ⟨hc1, hc2, hc3⟩ | hc1
          · exact Or.inl ⟨c1, c2, c3, rest, rfl, hc1, hc2, hc3⟩
          · exact Or.inr ⟨c1, c2 :: c3 :: rest, rfl, hc1⟩
        · intro hr
          rcases hr with ⟨d1, d2, d3, drest, heq, hd1, hd2, hd3⟩ |
            ⟨d1, drest, heq, hd1⟩
          · injection heq with e1 heq
            injection heq with e2 heq
            injection heq with e3 _
            subst e1; subst e2; subst e3
            exact Or.inl ⟨hd1, hd2, hd3⟩
          · injection heq with e1 _
            subst e1
            exact Or.inr hd1

theorem filledBracketMatch_iff (t : String) :
    FileSvc.filledBracketMatch t = true ↔
      ∃ c1 c2 c3 rest, t.toList = c1 :: c2 :: c3 :: rest ∧
        (c1 = '[' ∨ c1 = '(') ∧ (c2 = 'x' ∨ c2 = 'X') ∧
        (c3 = ']' ∨ c3 = ')') := by
  cases h : t.data with
  | nil => simp [FileSvc.filledBracketMatch, String.toList, h]
  | cons c1 t1 =>
    cases t1 with
    | nil => simp [FileSvc.filledBracketMatch, String.toList, h]
    | cons c2 t2 =>
      cases t2 with
      | nil => simp [FileSvc.filledBracketMatch, String.toList, h]
      | cons c3 rest =>
        simp only [FileSvc.filledBracketMatch, String.toList, h,
          Bool.and_eq_true, Bool.or_eq_true, decide_eq_true_eq, and_assoc]
        constructor
        · rintro ⟨hc1, hc2, hc3⟩
          exact ⟨c1, c2, c3, rest, rfl, hc1, hc2, hc3⟩
        · rintro ⟨d1, d2, d3, drest, heq, hd1, hd2, hd3⟩
          injection heq with e1 heq
          injection heq with e2 heq
          injection heq with e3 _
          subst e1; subst e2; subst e3
          exact ⟨hd1, hd2, hd3⟩

theorem includesChar_iff (s : String) (c : Char) :
    includesChar s c = true ↔ c ∈ s.toList := by
  simp [includesChar, List.contains]

theorem checkedMatch_iff (t : String) :
    FileSvc.checkedMatch t = true ↔
      '☑' ∈ t.toList ∨ '☒' ∈ t.toList ∨
      (∃ c1 c2 c3 rest, t.toList = c1 :: c2 :: c3 :: rest ∧
        (c1 = '[' ∨ c1 = '(') ∧ (c2 = 'x' ∨ c2 = 'X') ∧
        (c3 = ']' ∨ c3 = ')')) := by
  rw [FileSvc.checkedMatch]
  simp only [Bool.or_eq_true, includesChar_iff, filledBracketMatch_iff,
    or_assoc]

/-- C6 (amended): a non-empty rich-document paragraph is classified
`checkbox` exactly when its trimmed text begins with an opening `[` or `(`
followed by `x`, `X` or a whitespace character and then a closing `]` or
`)` (the delimiters need not pair: `(X)`, `( )`, `[x)` all match), or
begins with ☐, ☑ or ☒; its checked-state is true exactly when the text
contains ☑ or ☒ anywhere or begins with bracket-x/X-bracket. -/
theorem docx_checkbox_classification (info : FileSvc.ElemInfo)
    (children : List FileSvc.DomNode) (acc : List DocumentChunk)
    (htext : jsTrim info.innerText ≠ "") :
    ∃ c, FileSvc.walk acc (FileSvc.DomNode.elem "p" info children) =
        acc ++ [c] ∧
      (c.type = ChunkType.checkbox ↔
        (∃ c1 c2 c3 rest,
          (jsTrim info.innerText).toList = c1 :: c2 :: c3 :: rest ∧
          (c1 = '[' ∨ c1 = '(') ∧
          (c2 = 'x' ∨ c2 = 'X' ∨ isSpaceClass c2 = true) ∧
          (c3 = ']' ∨ c3 = ')')) ∨
        (∃ c1 rest, (jsTrim info.innerText).toList = c1 :: rest ∧
          (c1 = '☐' ∨ c1 = '☑' ∨ c1 = '☒'))) ∧
      (c.metadata.map ChunkMeta.isChecked = some (some true) ↔
        '☑' ∈ (jsTrim info.innerText).toList ∨
        '☒' ∈ (jsTrim info.innerText).toList ∨
        (∃ c1 c2 c3 rest,
          (jsTrim info.innerText).toList = c1 :: c2 :: c3 :: rest ∧
          (c1 = '[' ∨ c1 = '(') ∧ (c2 = 'x' ∨ c2 = 'X') ∧
          (c3 = ']' ∨ c3 = ')'))) := by
  refine ⟨FileSvc.docxParagraphChunk acc.length info, ?_, ?_, ?_⟩
  · simp [FileSvc.walk, htext]
  · rw [← checkboxMatch_iff]
    by_cases hcb : FileSvc.checkboxMatch (jsTrim info.innerText) = true
    · simp [FileSvc.docxParagraphChunk, hcb]
    · simp [FileSvc.docxParagraphChunk, hcb]
  · rw [← checkedMatch_iff]
    by_cases hck : FileSvc.checkedMatch (jsTrim info.innerText) = true
    · simp [FileSvc.docxParagraphChunk, hck]
    · simp [FileSvc.docxParagraphChunk, hck]

/-- Witness for `docx_checkbox_classification`: the unchecked square
bracket prefix. -/
theorem docx_checkbox_classification_witness :
    ∃ c, FileSvc.walk []
        (FileSvc.DomNode.elem "p" { innerText := "[ ] Accept" } []) =
        [] ++ [c] ∧
      (c.type = ChunkType.checkbox ↔
        (∃ c1 c2 c3 rest,
          (jsTrim "[ ] Accept").toList = c1 :: c2 :: c3 :: rest ∧
          (c1 = '[' ∨ c1 = '(') ∧
          (c2 = 'x' ∨ c2 = 'X' ∨ isSpaceClass c2 = true) ∧
          (c3 = ']' ∨ c3 = ')')) ∨
        (∃ c1 rest, (jsTrim "[ ] Accept").toList = c1 :: rest ∧
          (c1 = '☐' ∨ c1 = '☑' ∨ c1 = '☒'))) ∧
      (c.metadata.map ChunkMeta.isChecked = some (some true) ↔
        '☑' ∈ (jsTrim "[ ] Accept").toList ∨
        '☒' ∈ (jsTrim "[ ] Accept").toList ∨
        (∃ c1 c2 c3 rest,
          (jsTrim "[ ] Accept").toList = c1 :: c2 :: c3 :: rest ∧
          (c1 = '[' ∨ c1 = '(') ∧ (c2 = 'x' ∨ c2 = 'X') ∧
          (c3 = ']' ∨ c3 = ')'))) :=
  docx_checkbox_classification { innerText := "[ ] Accept" } [] []
    (by decide)

/-- C6 counterexample: the capitalised round-bracket prefix `(X)` is not
one of the seven glyph prefixes the claim lists, yet processDocx
classifies the paragraph as a checkbox. -/
theorem docx_checkbox_glyphs_cex :
    (FileSvc.processDocx
      (FileSvc.DomNode.elem "p" { innerText := "(X) Agreed" } [])).map
        DocumentChunk.type = [ChunkType.checkbox] ∧
    jsTrim "(X) Agreed" = "(X) Agreed" ∧
    ¬ ("[ ]".toList.isPrefixOf "(X) Agreed".toList) ∧
    ¬ ("[x]".toList.isPrefixOf "(X) Agreed".toList) ∧
    ¬ ("[X]".toList.isPrefixOf "(X) Agreed".toList) ∧
    ¬ ("(x)".toList.isPrefixOf "(X) Agreed".toList) ∧
    ¬ ("☐".toList.isPrefixOf "(X) Agreed".toList) ∧
    ¬ ("☑".toList.isPrefixOf "(X) Agreed".toList) ∧
    ¬ ("☒".toList.isPrefixOf "(X) Agreed".toList) := by decide

theorem walkList_textInv :
    ∀ (fuel : Nat) (ns : List FileSvc.DomNode), sizeOf ns ≤ fuel →
      ∀ (acc : List DocumentChunk),
        (∀ c ∈ acc,
          (c.type = ChunkType.paragraph ∨ c.type = ChunkType.checkbox) →
            c.originalText ≠ "") →
        ∀ c ∈ FileSvc.walkList acc ns,
          (c.type = ChunkType.paragraph ∨ c.type = ChunkType.checkbox) →
            c.originalText ≠ "" := by
  intro fuel
  induction fuel with
  | zero =>
    intro ns hns acc hacc c hc
    exfalso
    cases ns with
    | nil => simp at hns
    | cons n rest =>
      simp only [List.cons.sizeOf_spec] at hns
      omega
  | succ fuel ih =>
    intro ns hns acc hacc c hc
    cases ns with
    | nil =>
      simp only [FileSvc.walkList] at hc
      exact hacc c hc
    | cons n rest =>
      simp only [FileSvc.walkList] at hc
      have hrest : sizeOf rest ≤ fuel := by
        simp only [List.cons.sizeOf_spec] at hns
        omega
      have hstep : ∀ c' ∈ FileSvc.walk acc n,
          (c'.type = ChunkType.paragraph ∨ c'.type = ChunkType.checkbox) →
            c'.originalText ≠ "" := by
        cases n with
        | nonElement =>
          intro c' hc'
          simp only [FileSvc.walk] at hc'
          exact hacc c' hc'
        | elem tag info children =>
          intro c' hc' htype
          simp only [FileSvc.walk] at hc'
          split_ifs at hc' with h1 h2 h3 h4 h5
          · rcases List.mem_append.mp hc' with hm | hm
            · exact hacc c' hm htype
            · rcases List.mem_singleton.mp hm with rfl
              rcases htype with ht | ht <;>
                simp [FileSvc.docxHeadingChunk] at ht
          · rcases List.mem_append.mp hc' with hm | hm
            · exact hacc c' hm htype
            · rcases List.mem_singleton.mp hm with rfl
              rcases htype with ht | ht <;> simp at ht
          · rcases List.mem_append.mp hc' with hm | hm
            · exact hacc c' hm htype
            · rcases List.mem_singleton.mp hm with rfl
              exact h3
          · rcases List.mem_append.mp hc' with hm | hm
            · exact hacc c' hm htype
            · rcases List.mem_singleton.mp hm with rfl
              rcases htype with ht | ht <;>
                simp [FileSvc.docxCellChunk] at ht
          · rcases List.mem_append.mp hc' with hm | hm
            · exact hacc c' hm htype
            · rcases List.mem_singleton.mp hm with rfl
              rcases htype with ht | ht <;> simp at ht
          · have hch : sizeOf children ≤ fuel := by
              simp only [List.cons.sizeOf_spec,
                FileSvc.DomNode.elem.sizeOf_spec] at hns
              omega
            exact ih children hch acc hacc c' hc' htype
      exact ih rest hrest (FileSvc.walk acc n) hstep c hc

theorem pdfFlush_inv (st : FileSvc.PdfState)
    (h : ∀ c ∈ st.chunks, c.type ≠ ChunkType.emptyLine → c.originalText ≠ "") :
    ∀ c ∈ (FileSvc.pdfFlush st).chunks,
      c.type ≠ ChunkType.emptyLine → c.originalText ≠ "" := by
  intro c hc ht
  by_cases hne : jsTrim st.currentLine ≠ ""
  · simp only [FileSvc.pdfFlush, if_pos hne] at hc
    rcases List.mem_append.mp hc with hm | hm
    · exact h c hm ht
    · rcases List.mem_singleton.mp hm with rfl
      exact hne
  · simp only [FileSvc.pdfFlush, if_neg hne] at hc
    rcases List.mem_append.mp hc with hm | hm
    · exact h c hm ht
    · rcases List.mem_singleton.mp hm with rfl
      exact absurd rfl ht

theorem pdfStep_inv (st : FileSvc.PdfState) (item : FileSvc.PdfItem)
    (h : ∀ c ∈ st.chunks, c.type ≠ ChunkType.emptyLine → c.originalText ≠ "") :
    ∀ c ∈ (FileSvc.pdfStep st item).chunks,
      c.type ≠ ChunkType.emptyLine → c.originalText ≠ "" := by
  intro c hc ht
  by_cases hcond : st.lastY ≠ -1 ∧ (item.y - st.lastY).natAbs > 10
  · simp only [FileSvc.pdfStep, if_pos hcond] at hc
    exact pdfFlush_inv st h c hc ht
  · simp only [FileSvc.pdfStep, if_neg hcond] at hc
    exact h c hc ht

theorem pdfFold_inv :
    ∀ (items : List FileSvc.PdfItem) (st : FileSvc.PdfState),
      (∀ c ∈ st.chunks, c.type ≠ ChunkType.emptyLine → c.originalText ≠ "") →
      ∀ c ∈ (items.foldl FileSvc.pdfStep st).chunks,
        c.type ≠ ChunkType.emptyLine → c.originalText ≠ "" := by
  intro items
  induction items with
  | nil => intro st h; simpa using h
  | cons it rest ih =>
    intro st h
    rw [List.foldl_cons]
    exact ih (FileSvc.pdfStep st it) (pdfStep_inv st it h)

theorem processPdfPage_inv (acc : List DocumentChunk)
    (items : List FileSvc.PdfItem)
    (h : ∀ c ∈ acc, c.type ≠ ChunkType.emptyLine → c.originalText ≠ "") :
    ∀ c ∈ FileSvc.processPdfPage acc items,
      c.type ≠ ChunkType.emptyLine → c.originalText ≠ "" := by
  intro c hc ht
  rw [FileSvc.processPdfPage] at hc
  have hfin : ∀ c' ∈ (items.foldl FileSvc.pdfStep
      { chunks := acc, currentLine := "", lastY := -1 }).chunks,
      c'.type ≠ ChunkType.emptyLine → c'.originalText ≠ "" :=
    pdfFold_inv items _ (by simpa using h)
  by_cases hne : jsTrim (items.foldl FileSvc.pdfStep
      { chunks := acc, currentLine := "", lastY := -1 }).currentLine ≠ ""
  · rw [if_pos hne] at hc
    rcases List.mem_append.mp hc with hm | hm
    · exact hfin c hm ht
    · rcases List.mem_singleton.mp hm with rfl
      exact hne
  · rw [if_neg hne] at hc
    exact hfin c hc ht

/-- C8 (amended): every chunk emitted by the line-text and fixed-layout
strategies has non-empty originalText unless its kind is empty-line, and
every paragraph or checkbox chunk of the rich-document strategy has
non-empty originalText; rich-document heading and table-cell chunks take
the element's trimmed text verbatim and may carry the empty string when
the element has no text. -/
theorem extraction_text_invariant :
    (∀ text c, c ∈ FileSvc.processTxt text →
      c.type ≠ ChunkType.emptyLine → c.originalText ≠ "") ∧
    (∀ pages c, c ∈ FileSvc.processPdf pages →
      c.type ≠ ChunkType.emptyLine → c.originalText ≠ "") ∧
    (∀ body c, c ∈ FileSvc.processDocx body →
      (c.type = ChunkType.paragraph ∨ c.type = ChunkType.checkbox) →
      c.originalText ≠ "") := by
  refine ⟨?_, ?_, ?_⟩
  · intro text c hc
    refine mapIdxFrom_forall
      (fun c => c.type ≠ ChunkType.emptyLine → c.originalText ≠ "")
      FileSvc.processTxtLine ?_ 0 (FileSvc.splitLines text) c hc
    intro i line
    by_cases hlen : (jsTrim line).length = 0
    · rw [FileSvc.processTxtLine, if_pos hlen]
      intro ht
      exact absurd rfl ht
    · rw [FileSvc.processTxtLine, if_neg hlen]
      intro _ hline
      apply hlen
      rw [show line = "" from hline]
      rfl
  · intro pages c hc
    have H : ∀ (ps : List (List FileSvc.PdfItem)) (acc : List DocumentChunk),
        (∀ c' ∈ acc, c'.type ≠ ChunkType.emptyLine → c'.originalText ≠ "") →
        ∀ c' ∈ ps.foldl FileSvc.processPdfPage acc,
          c'.type ≠ ChunkType.emptyLine → c'.originalText ≠ "" := by
      intro ps
      induction ps with
      | nil => intro acc h; simpa using h
      | cons p rest ih =>
        intro acc h
        rw [List.foldl_cons]
        exact ih (FileSvc.processPdfPage acc p) (processPdfPage_inv acc p h)
    exact H pages [] (by intro c' hc'; simp at hc') c hc
  · intro body c hc htype
    have hwl : FileSvc.walkList [] [body] = FileSvc.walk [] body := by
      simp [FileSvc.walkList]
    refine walkList_textInv (sizeOf [body]) [body] (Nat.le_refl _) []
      (by intro c' hc'; simp at hc') c ?_ htype
    rw [hwl]
    simpa [FileSvc.processDocx] using hc

/-- Witness for `extraction_text_invariant`: the heading chunk extracted
from the one-line text file "Hello". -/
theorem extraction_text_invariant_witness :
    ({ id := "chunk-0", type := ChunkType.heading, originalText := "Hello",
       metadata := some { alignment := some "left", isBold := some true,
                          level := some 1 } } : DocumentChunk).originalText ≠
      "" :=
  extraction_text_invariant.1 "Hello"
    { id := "chunk-0", type := ChunkType.heading, originalText := "Hello",
      metadata := some { alignment := some "left", isBold := some true,
                         level := some 1 } }
    (by decide) (by decide)

/-- C8 counterexample: a rich-document heading element with no text
produces a heading chunk whose originalText is the empty string, although
its kind is not empty-line. -/
theorem docx_empty_heading_cex :
    FileSvc.processDocx (FileSvc.DomNode.elem "h1" { innerText := "" } []) =
      [{ id := "docx-h-0", type := ChunkType.heading, originalText := "",
         metadata := some { level := some 1, isBold := some true,
                            isUnderlined := some false } }] ∧
    ChunkType.heading ≠ ChunkType.emptyLine := by decide

end ReTrans
